import Mathlib

/-
Verification of the random-forest regression engine of this repository.

The engine lives in src/services (the contents of mlEngine.ts are appended to
dataService.ts in this snapshot): calculateMAE, calculateR2, bootstrapSample,
buildTree, calculateVariance, predictTree, trainRandomForest, predictForest,
plus the callers handleTrain and handlePredict.

Modelling conventions:
- JavaScript numbers are modelled as rationals (ℚ).  The inputs handled by the
  app are finite numbers, and every arithmetic step of the engine is exact on
  rationals.  IEEE NaN is not representable in ℚ; wherever the JS code can
  produce NaN or undefined (division by a zero count, out-of-range array
  reads), this file models the read as an Option or notes the default used.
- JS array index reads out of range yield undefined; they are modelled by
  Option (jsIndex) or by List.getD with an explicit default where the
  surrounding claim only concerns in-range behaviour.
- Math.random is ambient randomness.  It is modelled by explicit choice
  functions: a pick function Nat → Nat for bootstrap indices (Math.floor of
  Math.random()*n always lies in [0, n-1], which becomes a hypothesis), and a
  RandOracle supplying, per tree-node path, the arbitrary reordering the JS
  inconsistent-comparator sort produces for the feature list and for the
  threshold candidates.  The sort's output is some rearrangement of its input;
  no property proved here depends on which one.
- The FEATURES list of ../types is not part of this snapshot; the development
  is parametric in a feature type F and the feature list fs, which covers
  every concrete feature list.
-/

-- Constants of mlEngine.ts
def N_ESTIMATORS : Nat := 200

def MIN_SAMPLES_SPLIT : Nat := 5

def MAX_DEPTH : Nat := 15

variable {F : Type}

/-- A data row: one numeric value per feature, plus the numeric target
(`Number(row[TARGET])`).  Rows handled by the engine have passed the caller's
column validation, so all fields are present. -/
structure DataRow (F : Type) where
  feat : F → ℚ
  target : ℚ

instance : Inhabited (DataRow F) := ⟨⟨fun _ => 0, 0⟩⟩

/-- The targets column: `data.map(r => Number(r[TARGET]))`. -/
def targetsOf (data : List (DataRow F)) : List ℚ := data.map (fun r => r.target)

/-- JS `xs.reduce((a, b) => a + b, 0)`. -/
def listSum (xs : List ℚ) : ℚ := xs.foldl (· + ·) 0

/-- JS `xs.reduce((a, b) => a + b, 0) / xs.length`.  For an empty list JS yields
NaN; in ℚ the division by zero yields 0. -/
def listMean (xs : List ℚ) : ℚ := listSum xs / (xs.length : ℚ)

/-- calculateMAE of mlEngine.ts.  The JS loop runs i over 0..yTrue.length-1 and
reads yPred[i]; an out-of-range read is undefined (the sum becomes NaN), which
ℚ cannot represent, so the read is modelled with default 0.  The two
behaviours agree whenever yPred is at least as long as yTrue, and whenever
yTrue is empty (the guard fires first). -/
def calculateMAE (yTrue yPred : List ℚ) : ℚ :=
  if yTrue.length = 0 then 0
  else
    ((List.range yTrue.length).foldl
      (fun s i => s + |yTrue.getD i 0 - yPred.getD i 0|) 0) / (yTrue.length : ℚ)

/-- calculateR2 of mlEngine.ts.  The single JS loop accumulates ssTot and ssRes
together; it is modelled as two folds over the same index range.  Out-of-range
yPred reads are modelled as in calculateMAE. -/
def calculateR2 (yTrue yPred : List ℚ) : ℚ :=
  if yTrue.length = 0 then 0
  else
    let meanY := listSum yTrue / (yTrue.length : ℚ)
    let ssTot := (List.range yTrue.length).foldl
      (fun s i => s + (yTrue.getD i 0 - meanY) ^ 2) 0
    let ssRes := (List.range yTrue.length).foldl
      (fun s i => s + (yTrue.getD i 0 - yPred.getD i 0) ^ 2) 0
    if ssTot = 0 then 0 else 1 - ssRes / ssTot

/-- bootstrapSample of mlEngine.ts.  `pick i` stands for
`Math.floor(Math.random() * n)` at loop iteration i; since Math.random() < 1,
the JS index is always < n, which the theorems take as a hypothesis.  The
out-of-range read (impossible in the JS code) defaults to `default`. -/
def bootstrapSample {α : Type} [Inhabited α] (data : List α) (pick : Nat → Nat) : List α :=
  (List.range data.length).map (fun i => data.getD (pick i) default)

/-- calculateVariance of mlEngine.ts: population variance with the
`values.length === 0` guard. -/
def calculateVariance (values : List ℚ) : ℚ :=
  if values.length = 0 then 0
  else
    let mean := listSum values / (values.length : ℚ)
    (values.foldl (fun a b => a + (b - mean) ^ 2) 0) / (values.length : ℚ)

/-- Helper of uniqueVals: keep the first occurrence of each value not yet in
`seen`, preserving order. -/
def dedupFirst (seen : List ℚ) : List ℚ → List ℚ
  | [] => []
  | x :: xs => if x ∈ seen then dedupFirst seen xs else x :: dedupFirst (x :: seen) xs

/-- JS `Array.from(new Set(xs))`: first occurrence of each distinct value, in
insertion order. -/
def uniqueVals (xs : List ℚ) : List ℚ := dedupFirst [] xs

/-- The DecisionTreeNode of ../types as used by mlEngine.ts: a record tagged by
isLeaf whose value is defined iff it is a leaf and whose
feature/threshold/left/right are defined iff it is internal. -/
inductive DecisionTreeNode (F : Type) where
  | leaf (value : ℚ)
  | node (feature : F) (threshold : ℚ) (left right : DecisionTreeNode F)

/-- The isLeaf tag of a DecisionTreeNode. -/
def DecisionTreeNode.isLeaf : DecisionTreeNode F → Bool
  | .leaf _ => true
  | .node _ _ _ _ => false

/-- Depth (edge count of the longest root-to-leaf path) of a tree. -/
def treeDepth : DecisionTreeNode F → Nat
  | .leaf _ => 0
  | .node _ _ l r => 1 + max (treeDepth l) (treeDepth r)

/-- The randomness consumed by buildTree at each node, indexed by the node's
path from the root of the tree under construction (false = left child).
`shuffle` models `[...FEATURES].sort(() => 0.5 - Math.random())` and
`pickThresh` models `values.sort(() => 0.5 - Math.random())`: each returns
some rearrangement of its input, and no theorem below depends on which. -/
structure RandOracle (F : Type) where
  shuffle : List Bool → List F → List F
  pickThresh : List Bool → List ℚ → List ℚ

/-- The oracle seen by the left (b = false) or right (b = true) recursive
call. -/
def RandOracle.child (o : RandOracle F) (b : Bool) : RandOracle F :=
  ⟨fun p => o.shuffle (b :: p), fun p => o.pickThresh (b :: p)⟩

/-- Rows with `Number(row[feature]) <= threshold`, in order. -/
def leftPart (data : List (DataRow F)) (f : F) (t : ℚ) : List (DataRow F) :=
  data.filter (fun r => decide (r.feat f ≤ t))

/-- Rows with `Number(row[feature]) > threshold`, in order. -/
def rightPart (data : List (DataRow F)) (f : F) (t : ℚ) : List (DataRow F) :=
  data.filter (fun r => ! decide (r.feat f ≤ t))

/-- JS `Math.ceil(FEATURES.length * MAX_FEATURES_RATIO)` with the ratio 0.7:
the ceiling of 7·len/10, written in exact Nat arithmetic as (7·len + 9)/10.
(The JS double 0.7 is not exactly 7/10, but the resulting ceiling agrees for
every feature-list size the app can see; no claim depends on this count.) -/
def maxFeatureCount (fs : List F) : Nat := (7 * fs.length + 9) / 10

/-- The candidate feature subset drawn at one node. -/
def selectedFeatures (fs : List F) (o : RandOracle F) : List F :=
  (o.shuffle [] fs).take (maxFeatureCount fs)

/-- The candidate thresholds tested for one feature at one node: the distinct
values of the feature in `data`, subsampled to 20 when more than 20 exist. -/
def testValues (data : List (DataRow F)) (o : RandOracle F) (f : F) : List ℚ :=
  let values := uniqueVals (data.map (fun d => d.feat f))
  if 20 < values.length then (o.pickThresh [] values).take 20 else values

/-- All (feature, threshold) candidates of one node, in the order the JS
nested loops visit them: features outer, thresholds inner. -/
def nodeCands (fs : List F) (data : List (DataRow F)) (o : RandOracle F) : List (F × ℚ) :=
  (selectedFeatures fs o).flatMap (fun f => (testValues data o f).map (fun t => (f, t)))

/-- The bestSplit record of buildTree (feature, threshold, varianceReduction,
left, right).  The JS initial value carries varianceReduction -Infinity; the
model uses Option, none standing for the initial record, which is faithful
because every computed reduction is a finite rational. -/
structure BestSplit (F : Type) where
  feature : F
  threshold : ℚ
  varianceReduction : ℚ
  left : List (DataRow F)
  right : List (DataRow F)

/-- The bestSplit record candidate c would install: its partition and its
variance reduction `currentVariance - (|l|/|data| * varLeft + |r|/|data| * varRight)`. -/
def mkSplit (data : List (DataRow F)) (parentVar : ℚ) (c : F × ℚ) : BestSplit F :=
  let l := leftPart data c.1 c.2
  let r := rightPart data c.1 c.2
  { feature := c.1
    threshold := c.2
    varianceReduction := parentVar -
      ((l.length : ℚ) / (data.length : ℚ) * calculateVariance (targetsOf l) +
        (r.length : ℚ) / (data.length : ℚ) * calculateVariance (targetsOf r))
    left := l
    right := r }

/-- One iteration of the candidate loop body of buildTree: skip a candidate
with an empty side, otherwise replace the best split iff the new reduction is
strictly greater. -/
def splitStep (data : List (DataRow F)) (parentVar : ℚ) (best : Option (BestSplit F))
    (c : F × ℚ) : Option (BestSplit F) :=
  if (leftPart data c.1 c.2).length = 0 ∨ (rightPart data c.1 c.2).length = 0 then best
  else
    match best with
    | none => some (mkSplit data parentVar c)
    | some b =>
      if b.varianceReduction < (mkSplit data parentVar c).varianceReduction then
        some (mkSplit data parentVar c)
      else some b

/-- The whole candidate scan of buildTree.  none exactly when the JS loop ends
with varianceReduction still -Infinity. -/
def chooseSplit (data : List (DataRow F)) (parentVar : ℚ) (cands : List (F × ℚ)) :
    Option (BestSplit F) :=
  cands.foldl (splitStep data parentVar) none

/-- buildTree of mlEngine.ts, with explicit fuel.  The recursion depth of the
JS function is bounded because a node at depth ≥ MAX_DEPTH is a leaf, so
`MAX_DEPTH - depth` fuel suffices; the fuel-0 branch is reached exactly when
`depth >= MAX_DEPTH`, where the JS code also returns the mean-valued leaf.
For empty data the JS mean is NaN (0/0); in ℚ listMean [] = 0. -/
def buildTreeGo (fs : List F) : Nat → List (DataRow F) → Nat → RandOracle F → DecisionTreeNode F
  | 0, data, _, _ => .leaf (listMean (targetsOf data))
  | fuel + 1, data, depth, o =>
    if MAX_DEPTH ≤ depth ∨ data.length < MIN_SAMPLES_SPLIT ∨
        (uniqueVals (targetsOf data)).length = 1 then
      .leaf (listMean (targetsOf data))
    else
      match chooseSplit data (calculateVariance (targetsOf data)) (nodeCands fs data o) with
      | none => .leaf (listMean (targetsOf data))
      | some s =>
        .node s.feature s.threshold
          (buildTreeGo fs fuel s.left (depth + 1) (o.child false))
          (buildTreeGo fs fuel s.right (depth + 1) (o.child true))

/-- buildTree of mlEngine.ts. -/
def buildTree (fs : List F) (data : List (DataRow F)) (depth : Nat) (o : RandOracle F) :
    DecisionTreeNode F :=
  buildTreeGo fs (MAX_DEPTH - depth) data depth o

/-- predictTree of mlEngine.ts. -/
def predictTree : DecisionTreeNode F → DataRow F → ℚ
  | .leaf v, _ => v
  | .node f t l r, row => if row.feat f ≤ t then predictTree l row else predictTree r row

/-- The PredictionResult of predictForest.  The JS bounds are array reads that
can be undefined (empty forest); they are modelled as Options. -/
structure PredictionResult where
  mean : ℚ
  lowerBound : Option ℚ
  upperBound : Option ℚ

/-- The per-tree predictions `trees.map(tree => predictTree(tree, row))`. -/
def forestPreds (trees : List (DecisionTreeNode F)) (row : DataRow F) : List ℚ :=
  trees.map (fun t => predictTree t row)

/-- JS `predictions.sort((a, b) => a - b)`: the ascending reordering.  On ℚ the
sorted rearrangement of a list is unique, so any correct sort models the JS
numeric sort; insertionSort is used for its Mathlib lemmas. -/
def sortedPreds (trees : List (DecisionTreeNode F)) (row : DataRow F) : List ℚ :=
  (forestPreds trees row).insertionSort (· ≤ ·)

/-- A JS array read `xs[i]` at a (possibly negative) integer index:
undefined (none) out of range. -/
def jsIndex (xs : List ℚ) (i : ℤ) : Option ℚ :=
  if i < 0 then none else xs.get? i.toNat

/-- predictForest of mlEngine.ts.  idx10/idx90 are
`Math.floor(n * 0.1)` and `Math.floor(n * 0.9)`; the doubles 0.1/0.9 are the
spec's percentiles, written exactly as 1/10 and 9/10.  The mean of an empty
prediction list is NaN in JS, 0 here. -/
def predictForest (trees : List (DecisionTreeNode F)) (row : DataRow F) : PredictionResult :=
  { mean := listSum (sortedPreds trees row) / ((sortedPreds trees row).length : ℚ)
    lowerBound := jsIndex (sortedPreds trees row)
      (max 0 ⌊((sortedPreds trees row).length : ℚ) * (1 / 10)⌋)
    upperBound := jsIndex (sortedPreds trees row)
      (min (((sortedPreds trees row).length : ℤ) - 1)
        ⌊((sortedPreds trees row).length : ℚ) * (9 / 10)⌋) }

/-- trainRandomForest of mlEngine.ts.  The chunked await-loop pushes trees for
i = 0..N_ESTIMATORS-1 in order; the chunking only yields to the host and does
not affect the result.  `pick i` is the bootstrap index stream of tree i and
`orc i` its per-node randomness. -/
def trainRandomForest (fs : List F) (data : List (DataRow F)) (pick : Nat → Nat → Nat)
    (orc : Nat → RandOracle F) : List (DecisionTreeNode F) :=
  (List.range N_ESTIMATORS).map (fun i => buildTree fs (bootstrapSample data (pick i)) 0 (orc i))

/-- The training-path error handling of handleTrain (dataService.ts): reject a
file that parsed to zero rows, otherwise train on oldData ++ fileData.  The
column-presence validation has no counterpart here because DataRow always
carries every field; storage, progress and metrics plumbing are omitted. -/
def handleTrainModel (fs : List F) (oldData fileData : List (DataRow F))
    (pick : Nat → Nat → Nat) (orc : Nat → RandOracle F) :
    Except String (List (DecisionTreeNode F)) :=
  if fileData.length = 0 then .error "文件为空"
  else .ok (trainRandomForest fs (oldData ++ fileData) pick orc)

/-- The prediction-path error handling of handlePredict (dataService.ts): fail
when no model is stored, fail when the file parsed to zero rows, otherwise map
predictForest over the rows.  The per-row rounding into the output sheet is
omitted. -/
def handlePredictModel (model : Option (List (DecisionTreeNode F)))
    (fileData : List (DataRow F)) : Except String (List PredictionResult) :=
  match model with
  | none => .error "该模型尚未训练，请先训练模型。"
  | some trees =>
    if fileData.length = 0 then .error "文件为空"
    else .ok (fileData.map (fun row => predictForest trees row))

-- Spec-side definitions (written from the spec's words, to compare with the
-- source-translated definitions above).

/-- Spec formula: population variance, mean squared deviation from the mean
with divisor = count. -/
def popVariance (ys : List ℚ) : ℚ :=
  listSum (ys.map (fun y => (y - listMean ys) ^ 2)) / (ys.length : ℚ)

/-- Spec formula: the score of a candidate split,
`parentVariance - (|left|/|data| * varianceOf(left.target) + |right|/|data| * varianceOf(right.target))`
with varianceOf the population variance. -/
def specScore (data : List (DataRow F)) (c : F × ℚ) : ℚ :=
  popVariance (targetsOf data) -
    (((leftPart data c.1 c.2).length : ℚ) / (data.length : ℚ) *
        popVariance (targetsOf (leftPart data c.1 c.2)) +
      ((rightPart data c.1 c.2).length : ℚ) / (data.length : ℚ) *
        popVariance (targetsOf (rightPart data c.1 c.2)))

/-- A candidate is valid when neither side of its partition is empty. -/
def validCand (data : List (DataRow F)) (c : F × ℚ) : Prop :=
  (leftPart data c.1 c.2).length ≠ 0 ∧ (rightPart data c.1 c.2).length ≠ 0

instance (data : List (DataRow F)) (c : F × ℚ) : Decidable (validCand data c) := by
  unfold validCand; infer_instance

/-- Invariant of the candidate scan: after processing the candidates in
`processed`, either no valid candidate has been seen (best still none), or
best is the record of the earliest valid candidate attaining the maximum
variance reduction: every valid candidate before it scores strictly less, and
every valid candidate after it scores at most as much. -/
def accInv (data : List (DataRow F)) (pv : ℚ) (processed : List (F × ℚ))
    (best : Option (BestSplit F)) : Prop :=
  (best = none ∧ ∀ c ∈ processed, ¬ validCand data c) ∨
  (∃ p₁ c p₂, processed = p₁ ++ c :: p₂ ∧ validCand data c ∧
    best = some (mkSplit data pv c) ∧
    (∀ c' ∈ p₁, validCand data c' →
      (mkSplit data pv c').varianceReduction < (mkSplit data pv c).varianceReduction) ∧
    (∀ c' ∈ p₂, validCand data c' →
      (mkSplit data pv c').varianceReduction ≤ (mkSplit data pv c).varianceReduction))

/-- Minimum of a list (spec side; 0 for the empty list, which no claim uses). -/
def listMin : List ℚ → ℚ
  | [] => 0
  | x :: xs => xs.foldl min x

/-- Maximum of a list (spec side; 0 for the empty list, which no claim uses). -/
def listMax : List ℚ → ℚ
  | [] => 0
  | x :: xs => xs.foldl max x

-- Concrete inputs used by the witnesses.

/-- A concrete row. -/
def rowW : DataRow (Fin 1) := ⟨fun _ => 0, 5⟩

/-- A concrete oracle: the identity rearrangements. -/
def oidW : RandOracle (Fin 1) := ⟨fun _ l => l, fun _ l => l⟩

/-- A concrete bootstrap index stream. -/
def pickW : Nat → Nat → Nat := fun _ _ => 0

/-- A concrete per-tree oracle family. -/
def orcW : Nat → RandOracle (Fin 1) := fun _ => oidW

/-- Five rows on one feature with two distinct targets: no stopping rule
applies at depth 0. -/
def dataW : List (DataRow (Fin 1)) :=
  [⟨fun _ => 1, 1⟩, ⟨fun _ => 2, 1⟩, ⟨fun _ => 3, 1⟩, ⟨fun _ => 4, 1⟩, ⟨fun _ => 5, 2⟩]

/-- Five rows with a constant feature and two distinct targets: no stopping
rule applies, yet every candidate split has an empty right side. -/
def dataW2 : List (DataRow (Fin 1)) :=
  [⟨fun _ => 1, 1⟩, ⟨fun _ => 1, 1⟩, ⟨fun _ => 1, 1⟩, ⟨fun _ => 1, 1⟩, ⟨fun _ => 1, 2⟩]

-- Helper lemmas --------------------------------------------------------------

theorem listSum_eq_sum (xs : List ℚ) : listSum xs = xs.sum := by
  rw [listSum]; exact List.sum_eq_foldl.symm

theorem foldl_add_map {β : Type} (g : β → ℚ) :
    ∀ (xs : List β) (a : ℚ), xs.foldl (fun s b => s + g b) a = a + (xs.map g).sum := by
  intro xs
  induction xs with
  | nil => intro a; simp
  | cons x xs ih =>
    intro a
    rw [List.foldl_cons, List.map_cons, List.sum_cons, ih (a + g x)]
    ring

theorem calculateVariance_eq_popVariance (xs : List ℚ) :
    calculateVariance xs = popVariance xs := by
  by_cases h : xs.length = 0
  · rw [List.length_eq_zero.mp h]
    simp [calculateVariance, popVariance, listSum]
  · simp only [calculateVariance, popVariance, listMean, if_neg h]
    rw [foldl_add_map (fun b => (b - listSum xs / (xs.length : ℚ)) ^ 2) xs 0, zero_add,
      listSum_eq_sum (xs.map (fun y => (y - listSum xs / (xs.length : ℚ)) ^ 2))]

theorem jsIndex_natCast (xs : List ℚ) (k : ℕ) : jsIndex xs ((k : ℕ) : ℤ) = xs.get? k := by
  rw [jsIndex, if_neg (not_lt.mpr (Int.natCast_nonneg k)), Int.toNat_natCast]

theorem floor_tenth (n : ℕ) : ⌊(n : ℚ) * (1 / 10)⌋ = ((n / 10 : ℕ) : ℤ) := by
  have h : (n : ℚ) * (1 / 10) = (n : ℚ) / ((10 : ℕ) : ℚ) := by push_cast; ring
  have h0 : (0 : ℚ) ≤ (n : ℚ) / ((10 : ℕ) : ℚ) := by positivity
  rw [h, ← Int.toNat_of_nonneg (Int.floor_nonneg.mpr h0), Int.floor_toNat,
    Nat.floor_div_nat, Nat.floor_natCast]

theorem floor_ninetenths (n : ℕ) : ⌊(n : ℚ) * (9 / 10)⌋ = ((9 * n / 10 : ℕ) : ℤ) := by
  have h : (n : ℚ) * (9 / 10) = (((9 * n : ℕ) : ℚ)) / ((10 : ℕ) : ℚ) := by push_cast; ring
  have h0 : (0 : ℚ) ≤ (((9 * n : ℕ) : ℚ)) / ((10 : ℕ) : ℚ) := by positivity
  rw [h, ← Int.toNat_of_nonneg (Int.floor_nonneg.mpr h0), Int.floor_toNat,
    Nat.floor_div_nat, Nat.floor_natCast]

theorem predictForest_lower_eq (trees : List (DecisionTreeNode F)) (row : DataRow F) :
    (predictForest trees row).lowerBound =
      (sortedPreds trees row).get? ((sortedPreds trees row).length / 10) := by
  simp only [predictForest]
  rw [floor_tenth, max_eq_right (Int.natCast_nonneg _), jsIndex_natCast]

theorem predictForest_upper_eq (trees : List (DecisionTreeNode F)) (row : DataRow F)
    (h : (sortedPreds trees row).length ≠ 0) :
    (predictForest trees row).upperBound =
      (sortedPreds trees row).get?
        (min ((sortedPreds trees row).length - 1) (9 * (sortedPreds trees row).length / 10)) := by
  simp only [predictForest]
  rw [floor_ninetenths]
  rw [show min (((sortedPreds trees row).length : ℤ) - 1)
        ((9 * (sortedPreds trees row).length / 10 : ℕ) : ℤ) =
      (((min ((sortedPreds trees row).length - 1)
          (9 * (sortedPreds trees row).length / 10) : ℕ)) : ℤ) from by omega]
  rw [jsIndex_natCast]

theorem range_map_getD_eq_map (g : ℚ → ℚ) (ys : List ℚ) :
    (List.range ys.length).map (fun i => g (ys.getD i 0)) = ys.map g := by
  apply List.ext_getElem (by simp)
  intro i h1 h2
  have hi : i < ys.length := by simpa using h1
  rw [List.getElem_map, List.getElem_range, List.getElem_map, List.getD_eq_getElem ys 0 hi]

theorem range_map_getD_zip (g : ℚ → ℚ → ℚ) (ys ps : List ℚ) (h : ys.length = ps.length) :
    (List.range ys.length).map (fun i => g (ys.getD i 0) (ps.getD i 0)) =
      (ys.zip ps).map (fun p => g p.1 p.2) := by
  apply List.ext_getElem (by simp [List.length_zip, h])
  intro i h1 h2
  have hi : i < ys.length := by simpa using h1
  have hp : i < ps.length := h ▸ hi
  rw [List.getElem_map, List.getElem_range, List.getElem_map, List.getElem_zip,
    List.getD_eq_getElem ys 0 hi, List.getD_eq_getElem ps 0 hp]

theorem foldl_min_le_init (xs : List ℚ) : ∀ a : ℚ, xs.foldl min a ≤ a := by
  induction xs with
  | nil => intro a; simp
  | cons x xs ih => intro a; exact le_trans (ih (min a x)) (min_le_left a x)

theorem foldl_min_le_mem (xs : List ℚ) : ∀ (a x : ℚ), x ∈ xs → xs.foldl min a ≤ x := by
  induction xs with
  | nil => intro a x hx; cases hx
  | cons y ys ih =>
    intro a x hx
    rcases List.mem_cons.mp hx with rfl | hx
    · exact le_trans (foldl_min_le_init ys (min a x)) (min_le_right a x)
    · exact ih (min a y) x hx

theorem le_foldl_max_init (xs : List ℚ) : ∀ a : ℚ, a ≤ xs.foldl max a := by
  induction xs with
  | nil => intro a; simp
  | cons x xs ih => intro a; exact le_trans (le_max_left a x) (ih (max a x))

theorem le_foldl_max_mem (xs : List ℚ) : ∀ (a x : ℚ), x ∈ xs → x ≤ xs.foldl max a := by
  induction xs with
  | nil => intro a x hx; cases hx
  | cons y ys ih =>
    intro a x hx
    rcases List.mem_cons.mp hx with rfl | hx
    · exact le_trans (le_max_right a x) (le_foldl_max_init ys (max a x))
    · exact ih (max a y) x hx

theorem listMin_le_mem (x : ℚ) (xs : List ℚ) :
    ∀ y ∈ x :: xs, listMin (x :: xs) ≤ y := by
  intro y hy
  rcases List.mem_cons.mp hy with rfl | hy
  · exact foldl_min_le_init xs y
  · exact foldl_min_le_mem xs x y hy

theorem mem_le_listMax (x : ℚ) (xs : List ℚ) :
    ∀ y ∈ x :: xs, y ≤ listMax (x :: xs) := by
  intro y hy
  rcases List.mem_cons.mp hy with rfl | hy
  · exact le_foldl_max_init xs y
  · exact le_foldl_max_mem xs x y hy

theorem length_mul_le_listSum :
    ∀ (xs : List ℚ) (m : ℚ), (∀ x ∈ xs, m ≤ x) → (xs.length : ℚ) * m ≤ listSum xs := by
  intro xs
  induction xs with
  | nil => intro m h; simp [listSum]
  | cons x xs ih =>
    intro m h
    have hx := h x (List.mem_cons_self x xs)
    have ih2 := ih m (fun y hy => h y (List.mem_cons_of_mem x hy))
    rw [listSum_eq_sum] at ih2 ⊢
    rw [List.sum_cons, List.length_cons]
    push_cast
    nlinarith

theorem listSum_le_length_mul :
    ∀ (xs : List ℚ) (m : ℚ), (∀ x ∈ xs, x ≤ m) → listSum xs ≤ (xs.length : ℚ) * m := by
  intro xs
  induction xs with
  | nil => intro m h; simp [listSum]
  | cons x xs ih =>
    intro m h
    have hx := h x (List.mem_cons_self x xs)
    have ih2 := ih m (fun y hy => h y (List.mem_cons_of_mem x hy))
    rw [listSum_eq_sum] at ih2 ⊢
    rw [List.sum_cons, List.length_cons]
    push_cast
    nlinarith

theorem accInv_step (data : List (DataRow F)) (pv : ℚ) (processed : List (F × ℚ))
    (best : Option (BestSplit F)) (c : F × ℚ) (h : accInv data pv processed best) :
    accInv data pv (processed ++ [c]) (splitStep data pv best c) := by
  unfold splitStep
  by_cases hv : (leftPart data c.1 c.2).length = 0 ∨ (rightPart data c.1 c.2).length = 0
  · rw [if_pos hv]
    have hcinv : ¬ validCand data c := by unfold validCand; tauto
    rcases h with ⟨hb, hall⟩ | ⟨p₁, cb, p₂, hdec, hvb, hb, h₁, h₂⟩
    · refine Or.inl ⟨hb, ?_⟩
      intro x hx
      rcases List.mem_append.mp hx with hx | hx
      · exact hall x hx
      · rw [List.mem_singleton] at hx
        exact hx ▸ hcinv
    · refine Or.inr ⟨p₁, cb, p₂ ++ [c], by rw [hdec]; simp, hvb, hb, h₁, ?_⟩
      intro x hx hvx
      rcases List.mem_append.mp hx with hx | hx
      · exact h₂ x hx hvx
      · rw [List.mem_singleton] at hx
        subst hx
        exact absurd hvx hcinv
  · rw [if_neg hv]
    have hcval : validCand data c := by unfold validCand; tauto
    rcases h with ⟨hb, hall⟩ | ⟨p₁, cb, p₂, hdec, hvb, hb, h₁, h₂⟩
    · subst hb
      refine Or.inr ⟨processed, c, [], by simp, hcval, rfl, ?_, by simp⟩
      intro x hx hvx
      exact absurd hvx (hall x hx)
    · subst hb
      show accInv data pv (processed ++ [c])
        (if (mkSplit data pv cb).varianceReduction < (mkSplit data pv c).varianceReduction
          then some (mkSplit data pv c) else some (mkSplit data pv cb))
      by_cases hlt : (mkSplit data pv cb).varianceReduction <
          (mkSplit data pv c).varianceReduction
      · rw [if_pos hlt]
        refine Or.inr ⟨p₁ ++ cb :: p₂, c, [], by rw [hdec], hcval, rfl, ?_, by simp⟩
        intro x hx hvx
        rcases List.mem_append.mp hx with hx | hx
        · exact lt_trans (h₁ x hx hvx) hlt
        · rcases List.mem_cons.mp hx with rfl | hx
          · exact hlt
          · exact lt_of_le_of_lt (h₂ x hx hvx) hlt
      · rw [if_neg hlt]
        refine Or.inr ⟨p₁, cb, p₂ ++ [c], by rw [hdec]; simp, hvb, rfl, h₁, ?_⟩
        intro x hx hvx
        rcases List.mem_append.mp hx with hx | hx
        · exact h₂ x hx hvx
        · rw [List.mem_singleton] at hx
          subst hx
          exact not_lt.mp hlt

theorem accInv_foldl (data : List (DataRow F)) (pv : ℚ) :
    ∀ (cands processed : List (F × ℚ)) (best : Option (BestSplit F)),
      accInv data pv processed best →
      accInv data pv (processed ++ cands) (cands.foldl (splitStep data pv) best) := by
  intro cands
  induction cands with
  | nil => intro processed best h; simpa using h
  | cons x xs ih =>
    intro processed best h
    have h1 := accInv_step data pv processed best x h
    have h2 := ih (processed ++ [x]) (splitStep data pv best x) h1
    rw [List.foldl_cons]
    simpa [List.append_assoc] using h2

theorem chooseSplit_spec (data : List (DataRow F)) (pv : ℚ) (cands : List (F × ℚ)) :
    accInv data pv cands (chooseSplit data pv cands) := by
  have h := accInv_foldl data pv cands [] none (Or.inl ⟨rfl, by simp⟩)
  simpa [chooseSplit] using h

theorem chooseSplit_eq_none_iff (data : List (DataRow F)) (pv : ℚ) (cands : List (F × ℚ)) :
    chooseSplit data pv cands = none ↔ ∀ c ∈ cands, ¬ validCand data c := by
  have hspec := chooseSplit_spec data pv cands
  constructor
  · intro h
    rcases hspec with ⟨_, hall⟩ | ⟨p₁, c, p₂, hdec, hval, hbest, _, _⟩
    · exact hall
    · rw [h] at hbest
      cases hbest
  · intro hall
    rcases hspec with ⟨hnone, _⟩ | ⟨p₁, c, p₂, hdec, hval, _, _, _⟩
    · exact hnone
    · refine absurd hval (hall c ?_)
      rw [hdec]
      exact List.mem_append.mpr (Or.inr (List.mem_cons_self c p₂))

theorem buildTree_eq (fs : List F) (data : List (DataRow F)) (depth : Nat) (o : RandOracle F) :
    buildTree fs data depth o =
      if MAX_DEPTH ≤ depth ∨ data.length < MIN_SAMPLES_SPLIT ∨
          (uniqueVals (targetsOf data)).length = 1 then
        .leaf (listMean (targetsOf data))
      else
        match chooseSplit data (calculateVariance (targetsOf data)) (nodeCands fs data o) with
        | none => .leaf (listMean (targetsOf data))
        | some s =>
          .node s.feature s.threshold
            (buildTree fs s.left (depth + 1) (o.child false))
            (buildTree fs s.right (depth + 1) (o.child true)) := by
  by_cases hd : MAX_DEPTH ≤ depth
  · simp only [buildTree, Nat.sub_eq_zero_of_le hd, buildTreeGo, if_pos (Or.inl hd)]
  · have h1 : MAX_DEPTH - depth = (MAX_DEPTH - (depth + 1)) + 1 := by omega
    simp only [buildTree, h1, buildTreeGo]

theorem treeDepth_buildTreeGo (fs : List F) :
    ∀ (fuel : Nat) (data : List (DataRow F)) (depth : Nat) (o : RandOracle F),
      treeDepth (buildTreeGo fs fuel data depth o) ≤ fuel := by
  intro fuel
  induction fuel with
  | zero => intro data depth o; simp [buildTreeGo, treeDepth]
  | succ k ih =>
    intro data depth o
    simp only [buildTreeGo]
    split
    · simp [treeDepth]
    · split
      · simp [treeDepth]
      · next s heq =>
        simp only [treeDepth]
        have hL := ih s.left (depth + 1) (o.child false)
        have hR := ih s.right (depth + 1) (o.child true)
        omega

theorem mkSplit_varianceReduction (data : List (DataRow F)) (c : F × ℚ) :
    (mkSplit data (calculateVariance (targetsOf data)) c).varianceReduction =
      specScore data c := by
  simp only [mkSplit, specScore, calculateVariance_eq_popVariance]

-- Claim theorems --------------------------------------------------------------

/-- C3: in buildTree, when no stopping rule applies, every candidate
(feature, threshold) whose partition has an empty side is discarded: if all
candidates have an empty side the node becomes a leaf valued at the mean of
the targets, and otherwise the chosen split is a valid candidate whose stored
reduction equals the spec score — parent variance minus the size-weighted
population variances of the two sides — attaining the strictly greatest
variance reduction with ties broken by the first candidate in encounter order
(every earlier valid candidate scores strictly less, every later one at most
as much), and the node recurses on that candidate's partition. -/
theorem buildTree_split_rules (fs : List F) (data : List (DataRow F)) (depth : Nat)
    (o : RandOracle F)
    (h : ¬ (MAX_DEPTH ≤ depth ∨ data.length < MIN_SAMPLES_SPLIT ∨
      (uniqueVals (targetsOf data)).length = 1)) :
    ((∀ c ∈ nodeCands fs data o, ¬ validCand data c) →
      buildTree fs data depth o = DecisionTreeNode.leaf (listMean (targetsOf data)))
    ∧ (∀ s, chooseSplit data (calculateVariance (targetsOf data)) (nodeCands fs data o) =
          some s →
        ∃ p₁ c p₂, nodeCands fs data o = p₁ ++ c :: p₂
          ∧ validCand data c
          ∧ s.feature = c.1 ∧ s.threshold = c.2
          ∧ s.left = leftPart data c.1 c.2 ∧ s.right = rightPart data c.1 c.2
          ∧ s.varianceReduction = specScore data c
          ∧ (∀ c' ∈ p₁, validCand data c' → specScore data c' < specScore data c)
          ∧ (∀ c' ∈ p₂, validCand data c' → specScore data c' ≤ specScore data c)
          ∧ buildTree fs data depth o =
              DecisionTreeNode.node s.feature s.threshold
                (buildTree fs s.left (depth + 1) (o.child false))
                (buildTree fs s.right (depth + 1) (o.child true))) := by
  have hBT := buildTree_eq fs data depth o
  rw [if_neg h] at hBT
  constructor
  · intro hall
    rw [(chooseSplit_eq_none_iff data (calculateVariance (targetsOf data))
      (nodeCands fs data o)).mpr hall] at hBT
    exact hBT
  · intro s hs
    have hspec := chooseSplit_spec data (calculateVariance (targetsOf data)) (nodeCands fs data o)
    rcases hspec with ⟨hnone, _⟩ | ⟨p₁, c, p₂, hdec, hval, hbest, h₁, h₂⟩
    · rw [hs] at hnone
      cases hnone
    · rw [hs] at hbest
      have hsc : s = mkSplit data (calculateVariance (targetsOf data)) c := Option.some.inj hbest
      subst hsc
      rw [hs] at hBT
      refine ⟨p₁, c, p₂, hdec, hval, rfl, rfl, rfl, rfl,
        mkSplit_varianceReduction data c, ?_, ?_, hBT⟩
      · intro c' hc' hvc'
        rw [← mkSplit_varianceReduction data c', ← mkSplit_varianceReduction data c]
        exact h₁ c' hc' hvc'
      · intro c' hc' hvc'
        rw [← mkSplit_varianceReduction data c', ← mkSplit_varianceReduction data c]
        exact h₂ c' hc' hvc'

/-- Witness for C3 at concrete data (five rows, two distinct targets, so no
stopping rule applies; the single feature is constant, so every candidate
partition has an empty side and the node becomes the mean-valued leaf). -/
theorem buildTree_split_rules_witness :
    buildTree [(0 : Fin 1)] dataW2 0 oidW = DecisionTreeNode.leaf (listMean (targetsOf dataW2)) :=
  (buildTree_split_rules [(0 : Fin 1)] dataW2 0 oidW (by decide)).1 (by decide)

/-- C4: buildTree(data, depth) returns a leaf valued at the arithmetic mean of
the targets exactly when depth ≥ maxDepth (15), or the row count is below
minSamplesSplit (5), or all targets are numerically identical, or no valid
split exists (the candidate scan yields none); otherwise it returns an
internal node carrying the chosen split and recurses on both partition sides
at depth + 1. -/
theorem buildTree_stopping_rules (fs : List F) (data : List (DataRow F)) (depth : Nat)
    (o : RandOracle F) :
    ((MAX_DEPTH ≤ depth ∨ data.length < MIN_SAMPLES_SPLIT ∨
        (uniqueVals (targetsOf data)).length = 1 ∨
        chooseSplit data (calculateVariance (targetsOf data)) (nodeCands fs data o) = none) →
      buildTree fs data depth o = DecisionTreeNode.leaf (listMean (targetsOf data)))
    ∧ (¬ (MAX_DEPTH ≤ depth ∨ data.length < MIN_SAMPLES_SPLIT ∨
        (uniqueVals (targetsOf data)).length = 1 ∨
        chooseSplit data (calculateVariance (targetsOf data)) (nodeCands fs data o) = none) →
      ∃ s, chooseSplit data (calculateVariance (targetsOf data)) (nodeCands fs data o) = some s
        ∧ s.left = leftPart data s.feature s.threshold
        ∧ s.right = rightPart data s.feature s.threshold
        ∧ buildTree fs data depth o =
            DecisionTreeNode.node s.feature s.threshold
              (buildTree fs s.left (depth + 1) (o.child false))
              (buildTree fs s.right (depth + 1) (o.child true)))
    ∧ ((buildTree fs data depth o).isLeaf = true ↔
        (MAX_DEPTH ≤ depth ∨ data.length < MIN_SAMPLES_SPLIT ∨
          (uniqueVals (targetsOf data)).length = 1 ∨
          chooseSplit data (calculateVariance (targetsOf data)) (nodeCands fs data o) = none)) := by
  have hBT := buildTree_eq fs data depth o
  by_cases h3 : MAX_DEPTH ≤ depth ∨ data.length < MIN_SAMPLES_SPLIT ∨
      (uniqueVals (targetsOf data)).length = 1
  · rw [if_pos h3] at hBT
    refine ⟨fun _ => hBT, fun h4 => absurd (by tauto) h4, ?_⟩
    rw [hBT]
    simp only [DecisionTreeNode.isLeaf, true_iff]
    tauto
  · rw [if_neg h3] at hBT
    rcases Option.eq_none_or_eq_some
        (chooseSplit data (calculateVariance (targetsOf data)) (nodeCands fs data o)) with
      hcs | ⟨s, hcs⟩
    · rw [hcs] at hBT
      have hleaf : buildTree fs data depth o =
          DecisionTreeNode.leaf (listMean (targetsOf data)) := hBT
      refine ⟨fun _ => hleaf, fun h4 => absurd (Or.inr (Or.inr (Or.inr hcs))) h4, ?_⟩
      rw [hleaf]
      simp only [DecisionTreeNode.isLeaf, true_iff]
      exact Or.inr (Or.inr (Or.inr hcs))
    · rw [hcs] at hBT
      have hnode : buildTree fs data depth o =
          DecisionTreeNode.node s.feature s.threshold
            (buildTree fs s.left (depth + 1) (o.child false))
            (buildTree fs s.right (depth + 1) (o.child true)) := hBT
      have hspec := chooseSplit_spec data (calculateVariance (targetsOf data)) (nodeCands fs data o)
      rcases hspec with ⟨hnone, _⟩ | ⟨p₁, c, p₂, hdec, hval, hbest, h₁, h₂⟩
      · rw [hcs] at hnone
        cases hnone
      · rw [hcs] at hbest
        have hsc : s = mkSplit data (calculateVariance (targetsOf data)) c := Option.some.inj hbest
        refine ⟨?_, fun _ => ⟨s, hcs, by rw [hsc]; rfl, by rw [hsc]; rfl, hnode⟩, ?_⟩
        · intro h4
          rcases h4 with h4 | h4 | h4 | h4
          · exact absurd (Or.inl h4) h3
          · exact absurd (Or.inr (Or.inl h4)) h3
          · exact absurd (Or.inr (Or.inr h4)) h3
          · rw [h4] at hcs
            cases hcs
        · rw [hnode]
          simp only [DecisionTreeNode.isLeaf]
          constructor
          · intro hfalse
            exact Bool.noConfusion hfalse
          · intro h4
            rcases h4 with h4 | h4 | h4 | h4
            · exact absurd (Or.inl h4) h3
            · exact absurd (Or.inr (Or.inl h4)) h3
            · exact absurd (Or.inr (Or.inr h4)) h3
            · rw [h4] at hcs
              cases hcs

/-- Witness for C4: with no rows, the minimum-row stopping rule fires and
buildTree returns the mean-valued leaf. -/
theorem buildTree_stopping_rules_witness :
    buildTree ([] : List (Fin 1)) ([] : List (DataRow (Fin 1))) 7 oidW =
      DecisionTreeNode.leaf (listMean (targetsOf ([] : List (DataRow (Fin 1))))) :=
  (buildTree_stopping_rules ([] : List (Fin 1)) ([] : List (DataRow (Fin 1))) 7 oidW).1
    (Or.inr (Or.inl (by decide)))

theorem jsIndex_nil (i : ℤ) : jsIndex [] i = none := by
  rw [jsIndex]
  split
  · rfl
  · rfl

theorem foldl_range_zip (g : ℚ → ℚ → ℚ) (ys ps : List ℚ) (h : ys.length = ps.length) :
    (List.range ys.length).foldl (fun s i => s + g (ys.getD i 0) (ps.getD i 0)) 0 =
      listSum ((ys.zip ps).map (fun p => g p.1 p.2)) :=
  calc (List.range ys.length).foldl (fun s i => s + g (ys.getD i 0) (ps.getD i 0)) 0
      = 0 + ((List.range ys.length).map (fun i => g (ys.getD i 0) (ps.getD i 0))).sum :=
        foldl_add_map (fun i => g (ys.getD i 0) (ps.getD i 0)) (List.range ys.length) 0
    _ = ((ys.zip ps).map (fun p => g p.1 p.2)).sum := by
        rw [zero_add, range_map_getD_zip g ys ps h]
    _ = listSum ((ys.zip ps).map (fun p => g p.1 p.2)) := (listSum_eq_sum _).symm

theorem foldl_range_single (g : ℚ → ℚ) (ys : List ℚ) :
    (List.range ys.length).foldl (fun s i => s + g (ys.getD i 0)) 0 =
      listSum (ys.map g) :=
  calc (List.range ys.length).foldl (fun s i => s + g (ys.getD i 0)) 0
      = 0 + ((List.range ys.length).map (fun i => g (ys.getD i 0))).sum :=
        foldl_add_map (fun i => g (ys.getD i 0)) (List.range ys.length) 0
    _ = (ys.map g).sum := by
        rw [zero_add, range_map_getD_eq_map g ys]
    _ = listSum (ys.map g) := (listSum_eq_sum _).symm

/-- C5: for a non-empty forest, prediction evaluates each tree by descending
from the root (left iff row[feature] ≤ threshold, value at a leaf), sorts the
per-tree predictions ascending (the sorted sequence is an ascending
permutation of them), and returns mean = arithmetic mean of all predictions,
lowerBound = the sorted value at index floor(n·0.1) clamped to [0, n-1], and
upperBound = the sorted value at index floor(n·0.9) clamped to [0, n-1],
where n is the number of predictions and the indices are written in exact
Nat arithmetic: floor(n·0.1) = n/10 and floor(n·0.9) = 9·n/10. -/
theorem predictForest_aggregation (t : DecisionTreeNode F) (ts : List (DecisionTreeNode F))
    (row : DataRow F) :
    (∀ v, predictTree (DecisionTreeNode.leaf v) row = v)
    ∧ (∀ (f : F) (th : ℚ) (l r : DecisionTreeNode F),
        predictTree (DecisionTreeNode.node f th l r) row =
          if row.feat f ≤ th then predictTree l row else predictTree r row)
    ∧ List.Sorted (· ≤ ·) (sortedPreds (t :: ts) row)
    ∧ (sortedPreds (t :: ts) row).Perm (forestPreds (t :: ts) row)
    ∧ (predictForest (t :: ts) row).mean =
        listSum (forestPreds (t :: ts) row) / ((forestPreds (t :: ts) row).length : ℚ)
    ∧ (predictForest (t :: ts) row).lowerBound =
        (sortedPreds (t :: ts) row).get?
          (min ((forestPreds (t :: ts) row).length - 1) ((forestPreds (t :: ts) row).length / 10))
    ∧ (predictForest (t :: ts) row).upperBound =
        (sortedPreds (t :: ts) row).get?
          (min ((forestPreds (t :: ts) row).length - 1)
            (9 * (forestPreds (t :: ts) row).length / 10)) := by
  have hperm : (sortedPreds (t :: ts) row).Perm (forestPreds (t :: ts) row) :=
    List.perm_insertionSort (· ≤ ·) (forestPreds (t :: ts) row)
  have hlenP : (forestPreds (t :: ts) row).length = ts.length + 1 := by simp [forestPreds]
  have hlen : (sortedPreds (t :: ts) row).length = (forestPreds (t :: ts) row).length :=
    hperm.length_eq
  refine ⟨fun v => rfl, fun f th l r => rfl,
    List.sorted_insertionSort (· ≤ ·) (forestPreds (t :: ts) row), hperm, ?_, ?_, ?_⟩
  · show listSum (sortedPreds (t :: ts) row) / ((sortedPreds (t :: ts) row).length : ℚ) =
      listSum (forestPreds (t :: ts) row) / ((forestPreds (t :: ts) row).length : ℚ)
    rw [hlen, listSum_eq_sum, listSum_eq_sum, hperm.sum_eq]
  · rw [predictForest_lower_eq, hlen]
    rw [show min ((forestPreds (t :: ts) row).length - 1)
        ((forestPreds (t :: ts) row).length / 10) =
        (forestPreds (t :: ts) row).length / 10 from by omega]
  · rw [predictForest_upper_eq (t :: ts) row (by omega), hlen]

/-- C6: training a non-empty dataset produces a forest of exactly
N_ESTIMATORS = 200 trees, the i-th of which is built from its own bootstrap
sample (drawn with index stream pick i and node randomness orc i), and every
tree in the forest has depth at most MAX_DEPTH = 15. -/
theorem trainRandomForest_count_depth (fs : List F) (d : DataRow F) (ds : List (DataRow F))
    (pick : Nat → Nat → Nat) (orc : Nat → RandOracle F) :
    (trainRandomForest fs (d :: ds) pick orc).length = N_ESTIMATORS
    ∧ (∀ i, i < N_ESTIMATORS → (trainRandomForest fs (d :: ds) pick orc).get? i =
        some (buildTree fs (bootstrapSample (d :: ds) (pick i)) 0 (orc i)))
    ∧ (∀ tr ∈ trainRandomForest fs (d :: ds) pick orc, treeDepth tr ≤ MAX_DEPTH) := by
  refine ⟨by simp [trainRandomForest], ?_, ?_⟩
  · intro i hi
    simp only [trainRandomForest]
    rw [List.get?_map, List.get?_range hi]
    rfl
  · intro tr htr
    simp only [trainRandomForest] at htr
    rcases List.mem_map.mp htr with ⟨i, hi, rfl⟩
    have hdep := treeDepth_buildTreeGo fs (MAX_DEPTH - 0) (bootstrapSample (d :: ds) (pick i)) 0
      (orc i)
    simpa [buildTree] using hdep

/-- Witness for C6 at a one-row dataset. -/
theorem trainRandomForest_count_depth_witness :
    (trainRandomForest [(0 : Fin 1)] [rowW] pickW orcW).length = N_ESTIMATORS :=
  (trainRandomForest_count_depth [(0 : Fin 1)] rowW [] pickW orcW).1

/-- C7 counterexample: on the empty forest the bounds of predictForest are
undefined (the JS reads are out of range), so there are no bound values
satisfying lowerBound ≤ upperBound; the claim fails as stated for all
forests. -/
theorem predict_bounds_empty_forest :
    ¬ ∃ lb ub : ℚ,
      (predictForest ([] : List (DecisionTreeNode (Fin 1))) rowW).lowerBound = some lb
      ∧ (predictForest ([] : List (DecisionTreeNode (Fin 1))) rowW).upperBound = some ub
      ∧ lb ≤ ub := by
  have hnone : (predictForest ([] : List (DecisionTreeNode (Fin 1))) rowW).lowerBound = none := by
    simp only [predictForest]
    rw [show sortedPreds ([] : List (DecisionTreeNode (Fin 1))) rowW = [] from rfl]
    exact jsIndex_nil _
  rintro ⟨lb, ub, hl, _, _⟩
  rw [hnone] at hl
  cases hl

/-- C7 (amended to non-empty forests): prediction on a non-empty forest
returns defined bounds with lowerBound ≤ upperBound, and its mean lies in the
closed interval from the minimum to the maximum of the per-tree
predictions. -/
theorem predict_bounds_nonempty (t : DecisionTreeNode F) (ts : List (DecisionTreeNode F))
    (row : DataRow F) :
    (∃ lb ub : ℚ, (predictForest (t :: ts) row).lowerBound = some lb
      ∧ (predictForest (t :: ts) row).upperBound = some ub ∧ lb ≤ ub)
    ∧ listMin (forestPreds (t :: ts) row) ≤ (predictForest (t :: ts) row).mean
    ∧ (predictForest (t :: ts) row).mean ≤ listMax (forestPreds (t :: ts) row) := by
  have hperm : (sortedPreds (t :: ts) row).Perm (forestPreds (t :: ts) row) :=
    List.perm_insertionSort (· ≤ ·) (forestPreds (t :: ts) row)
  have hsort : List.Sorted (· ≤ ·) (sortedPreds (t :: ts) row) :=
    List.sorted_insertionSort (· ≤ ·) (forestPreds (t :: ts) row)
  have hlenP : (forestPreds (t :: ts) row).length = ts.length + 1 := by simp [forestPreds]
  have hlen : (sortedPreds (t :: ts) row).length = ts.length + 1 := by
    rw [← hlenP]
    exact hperm.length_eq
  have hpos : (0 : ℚ) < ((sortedPreds (t :: ts) row).length : ℚ) := by
    rw [hlen]
    exact_mod_cast Nat.succ_pos ts.length
  refine ⟨?_, ?_, ?_⟩
  · have hi1 : (sortedPreds (t :: ts) row).length / 10 < (sortedPreds (t :: ts) row).length := by
      omega
    have hi2 : min ((sortedPreds (t :: ts) row).length - 1)
        (9 * (sortedPreds (t :: ts) row).length / 10) < (sortedPreds (t :: ts) row).length := by
      omega
    refine ⟨(sortedPreds (t :: ts) row).get ⟨_, hi1⟩, (sortedPreds (t :: ts) row).get ⟨_, hi2⟩,
      ?_, ?_, ?_⟩
    · rw [predictForest_lower_eq, List.get?_eq_get hi1]
    · rw [predictForest_upper_eq (t :: ts) row (by omega), List.get?_eq_get hi2]
    · refine hsort.rel_get_of_le ?_
      rw [Fin.mk_le_mk]
      omega
  · have hb : ∀ x ∈ sortedPreds (t :: ts) row, listMin (forestPreds (t :: ts) row) ≤ x := by
      intro x hx
      have hx2 : x ∈ forestPreds (t :: ts) row := hperm.mem_iff.mp hx
      exact listMin_le_mem (predictTree t row) (ts.map (fun tr => predictTree tr row)) x hx2
    have hs := length_mul_le_listSum (sortedPreds (t :: ts) row)
      (listMin (forestPreds (t :: ts) row)) hb
    show listMin (forestPreds (t :: ts) row) ≤
      listSum (sortedPreds (t :: ts) row) / ((sortedPreds (t :: ts) row).length : ℚ)
    rw [le_div_iff₀ hpos, mul_comm]
    exact hs
  · have hb : ∀ x ∈ sortedPreds (t :: ts) row, x ≤ listMax (forestPreds (t :: ts) row) := by
      intro x hx
      have hx2 : x ∈ forestPreds (t :: ts) row := hperm.mem_iff.mp hx
      exact mem_le_listMax (predictTree t row) (ts.map (fun tr => predictTree tr row)) x hx2
    have hs := listSum_le_length_mul (sortedPreds (t :: ts) row)
      (listMax (forestPreds (t :: ts) row)) hb
    show listSum (sortedPreds (t :: ts) row) / ((sortedPreds (t :: ts) row).length : ℚ) ≤
      listMax (forestPreds (t :: ts) row)
    rw [div_le_iff₀ hpos, mul_comm]
    exact hs

/-- C8: for equal-length non-empty inputs, calculateR2 equals 1 - ssRes/ssTot
— with meanY the mean of yTrue, ssTot the sum of squared deviations of yTrue
from meanY and ssRes the sum of squared residuals — except that it returns
exactly 0 when ssTot = 0; and calculateMAE equals the arithmetic mean of the
absolute residuals. -/
theorem metrics_formulas (yTrue yPred : List ℚ) (hlen : yTrue.length = yPred.length)
    (hne : yTrue ≠ []) :
    calculateMAE yTrue yPred =
      listSum ((yTrue.zip yPred).map (fun p => |p.1 - p.2|)) / (yTrue.length : ℚ)
    ∧ calculateR2 yTrue yPred =
        (if listSum (yTrue.map (fun y => (y - listMean yTrue) ^ 2)) = 0 then 0
         else 1 - listSum ((yTrue.zip yPred).map (fun p => (p.1 - p.2) ^ 2)) /
            listSum (yTrue.map (fun y => (y - listMean yTrue) ^ 2))) := by
  have hlz : ¬ yTrue.length = 0 := fun h0 => hne (List.length_eq_zero.mp h0)
  constructor
  · have h1 : (List.range yTrue.length).foldl
        (fun s i => s + |yTrue.getD i 0 - yPred.getD i 0|) 0 =
        listSum ((yTrue.zip yPred).map (fun p => |p.1 - p.2|)) :=
      foldl_range_zip (fun a b => |a - b|) yTrue yPred hlen
    simp only [calculateMAE]
    rw [if_neg hlz, h1]
  · have hTot : (List.range yTrue.length).foldl
        (fun s i => s + (yTrue.getD i 0 - listSum yTrue / (yTrue.length : ℚ)) ^ 2) 0 =
        listSum (yTrue.map (fun y => (y - listSum yTrue / (yTrue.length : ℚ)) ^ 2)) :=
      foldl_range_single (fun a => (a - listSum yTrue / (yTrue.length : ℚ)) ^ 2) yTrue
    have hRes : (List.range yTrue.length).foldl
        (fun s i => s + (yTrue.getD i 0 - yPred.getD i 0) ^ 2) 0 =
        listSum ((yTrue.zip yPred).map (fun p => (p.1 - p.2) ^ 2)) :=
      foldl_range_zip (fun a b => (a - b) ^ 2) yTrue yPred hlen
    simp only [calculateR2, listMean]
    rw [if_neg hlz, hTot, hRes]

/-- Witness for C8 at yTrue = [1, 2], yPred = [1, 3]. -/
theorem metrics_formulas_witness :
    ([(1 : ℚ), 2]).length = ([(1 : ℚ), 3]).length ∧ ([(1 : ℚ), 2]) ≠ [] ∧
      calculateMAE [(1 : ℚ), 2] [(1 : ℚ), 3] =
        listSum ((([(1 : ℚ), 2]).zip [(1 : ℚ), 3]).map (fun p => |p.1 - p.2|)) /
          ((([(1 : ℚ), 2]).length : ℚ)) :=
  ⟨rfl, List.cons_ne_nil 1 [2],
    (metrics_formulas [(1 : ℚ), 2] [(1 : ℚ), 3] rfl (List.cons_ne_nil 1 [2])).1⟩

/-- C9: bootstrapSample returns a list of exactly the input length whose every
element is an element of the input, for any input of size ≥ 1, whenever every
drawn index is in range (as Math.floor(Math.random()·n) always is). -/
theorem bootstrapSample_length_mem {α : Type} [Inhabited α] (a : α) (rest : List α)
    (pick : Nat → Nat) (h : ∀ i, i < (a :: rest).length → pick i < (a :: rest).length) :
    (bootstrapSample (a :: rest) pick).length = (a :: rest).length
    ∧ ∀ x ∈ bootstrapSample (a :: rest) pick, x ∈ a :: rest := by
  constructor
  · simp [bootstrapSample]
  · intro x hx
    simp only [bootstrapSample] at hx
    rcases List.mem_map.mp hx with ⟨i, hi, rfl⟩
    have hi2 : i < (a :: rest).length := List.mem_range.mp hi
    have hp := h i hi2
    rw [List.getD_eq_getElem (a :: rest) default hp]
    exact List.getElem_mem hp

/-- Witness for C9. -/
theorem bootstrapSample_length_mem_witness :
    (∀ i, i < ([7, 8] : List ℕ).length → (fun _ => 1 : ℕ → ℕ) i < ([7, 8] : List ℕ).length)
    ∧ (bootstrapSample ([7, 8] : List ℕ) (fun _ => 1)).length = ([7, 8] : List ℕ).length
    ∧ ∀ x ∈ bootstrapSample ([7, 8] : List ℕ) (fun _ => 1), x ∈ ([7, 8] : List ℕ) := by
  refine ⟨by decide, ?_, ?_⟩
  · exact (bootstrapSample_length_mem 7 [8] (fun _ => 1) (by decide)).1
  · exact (bootstrapSample_length_mem 7 [8] (fun _ => 1) (by decide)).2

/-- C10 counterexample: with non-empty yTrue = [1, 2] and empty yPred, neither
metric returns 0, refuting the "either input list empty" reading.  (In JS the
out-of-range yPred reads make both results NaN; under the model's default-0
reads calculateMAE gives 3/2 and calculateR2 gives -9 — in both semantics the
result is not 0.) -/
theorem metrics_empty_pred_nonzero :
    calculateMAE [1, 2] [] ≠ 0 ∧ calculateR2 [1, 2] [] ≠ 0 := by
  constructor
  · have h : calculateMAE [1, 2] [] = 3 / 2 := by
      simp only [calculateMAE, List.length_cons, List.length_nil]
      norm_num [List.range_succ, List.getD_cons_zero, List.getD_cons_succ, List.getD_nil,
        abs_of_nonneg]
    rw [h]
    norm_num
  · have h : calculateR2 [1, 2] [] = -9 := by
      simp only [calculateR2, List.length_cons, List.length_nil]
      norm_num [List.range_succ, List.getD_cons_zero, List.getD_cons_succ, List.getD_nil, listSum]
    rw [h]
    norm_num

/-- C10 (amended): the empty-input guard of both metrics tests only yTrue:
whenever yTrue is empty, calculateR2 and calculateMAE return exactly 0,
whatever yPred is. -/
theorem metrics_empty_yTrue_zero (yPred : List ℚ) :
    calculateR2 [] yPred = 0 ∧ calculateMAE [] yPred = 0 := ⟨rfl, rfl⟩

/-- C1 counterexample: trainRandomForest invoked on the empty dataset does not
fail with any error; it returns a forest of N_ESTIMATORS trees (each a
degenerate leaf whose value is the mean of no targets — NaN in JS). -/
theorem trainRandomForest_empty_returns_forest :
    (trainRandomForest [(0 : Fin 1)] ([] : List (DataRow (Fin 1))) pickW orcW).length =
      N_ESTIMATORS
    ∧ (trainRandomForest [(0 : Fin 1)] ([] : List (DataRow (Fin 1))) pickW orcW).all
        (fun tr => tr.isLeaf) = true := by
  constructor
  · simp [trainRandomForest]
  · decide

/-- C1 (amended): the zero-rows failure lives in the caller handleTrain, which
rejects a file that parsed to zero rows (error 文件为空) before training ever
runs, and otherwise trains on the merged dataset; trainRandomForest itself
performs no emptiness check and returns a full-size forest even for the empty
dataset. -/
theorem handleTrain_empty_file_guard (fs : List F) (oldData : List (DataRow F))
    (d : DataRow F) (ds : List (DataRow F)) (pick : Nat → Nat → Nat)
    (orc : Nat → RandOracle F) :
    handleTrainModel fs oldData [] pick orc = Except.error "文件为空"
    ∧ handleTrainModel fs oldData (d :: ds) pick orc =
        Except.ok (trainRandomForest fs (oldData ++ d :: ds) pick orc)
    ∧ (trainRandomForest fs ([] : List (DataRow F)) pick orc).length = N_ESTIMATORS := by
  refine ⟨rfl, ?_, by simp [trainRandomForest]⟩
  simp [handleTrainModel]

/-- C2 counterexample: with a stored model whose tree list is empty,
handlePredict raises no error: it returns ordinary per-row results, built
from a degenerate PredictionResult whose bounds are undefined. -/
theorem handlePredict_emptyForest_ok :
    handlePredictModel (some ([] : List (DecisionTreeNode (Fin 1)))) [rowW] =
      Except.ok [predictForest ([] : List (DecisionTreeNode (Fin 1))) rowW]
    ∧ (predictForest ([] : List (DecisionTreeNode (Fin 1))) rowW).lowerBound = none
    ∧ (predictForest ([] : List (DecisionTreeNode (Fin 1))) rowW).upperBound = none := by
  refine ⟨rfl, ?_, ?_⟩
  · simp only [predictForest]
    rw [show sortedPreds ([] : List (DecisionTreeNode (Fin 1))) rowW = [] from rfl]
    exact jsIndex_nil _
  · simp only [predictForest]
    rw [show sortedPreds ([] : List (DecisionTreeNode (Fin 1))) rowW = [] from rfl]
    exact jsIndex_nil _

/-- C2 (amended): prediction fails with a distinguishable error exactly when
the stored model is absent (error 该模型尚未训练) or the prediction file has
zero rows (error 文件为空); an empty tree list inside a stored model is not
detected — handlePredict returns ordinary results and predictForest yields a
PredictionResult with undefined bounds (and NaN mean in JS). -/
theorem handlePredict_error_cases (trees : List (DecisionTreeNode F)) (r : DataRow F)
    (rs : List (DataRow F)) :
    handlePredictModel (none : Option (List (DecisionTreeNode F))) (r :: rs) =
        Except.error "该模型尚未训练，请先训练模型。"
    ∧ handlePredictModel (some trees) ([] : List (DataRow F)) = Except.error "文件为空"
    ∧ handlePredictModel (some ([] : List (DecisionTreeNode F))) (r :: rs) =
        Except.ok ((r :: rs).map (fun row => predictForest [] row))
    ∧ (predictForest ([] : List (DecisionTreeNode F)) r).lowerBound = none
    ∧ (predictForest ([] : List (DecisionTreeNode F)) r).upperBound = none := by
  refine ⟨rfl, rfl, ?_, ?_, ?_⟩
  · simp [handlePredictModel]
  · simp only [predictForest]
    rw [show sortedPreds ([] : List (DecisionTreeNode F)) r = [] from rfl]
    exact jsIndex_nil _
  · simp only [predictForest]
    rw [show sortedPreds ([] : List (DecisionTreeNode F)) r = [] from rfl]
    exact jsIndex_nil _
